import Mathlib

/-!
Verification development for the gradient-editor engine
(`tvtk/util/gradient_editor.py`): color conversions, control points,
the legacy discretized gradient table (`GradientTableOld`), the
delegating table (`GradientTable`), the scaling-function plumbing and
the `.grad` persistence codec.

Embedding conventions:
* Python floats are modelled as exact rationals (`ℚ`); the source's
  float literals (`1e-4`, `0.5`, ...) become the exact rationals they
  denote.
* Python `int(x)` (truncation toward zero) is `pytrunc`.
* Python's `str.split()` (split on whitespace runs) is `pysplit`, and
  the `float(...)` builtin is `pyfloat` (returning `none` where Python
  raises `ValueError`).
* Methods that mutate `self` become functions `State → State`; methods
  that can raise return `State × Option String` where the `Option`
  carries the raised message (the state component is the state as
  mutated up to the raise point, matching Python semantics where a
  raise does not roll back earlier attribute assignments).
* The dynamically `exec`-compiled scaling expression is abstracted as
  a `compile : String → ℚ → Option (ℚ → ℚ)` parameter (`none` models a
  compile failure); everything else is translated from the source.
-/

set_option allowUnsafeReducibility true in
attribute [semireducible] Rat.add Rat.mul Rat.inv Rat.sub Rat.ofScientific

/-- Python `int(x)`: truncation toward zero. -/
def pytrunc (x : ℚ) : ℤ := if 0 ≤ x then ⌊x⌋ else ⌈x⌉

/-- Membership of a character in a string (Python's `c in s` on the
one-character channel names; structurally recursive so that proofs can
evaluate it). -/
def strContains (s : String) (c : Char) : Bool := s.toList.contains c

/-- Worker for `pysplit`: walk the characters, accumulating the
current (reversed) field. -/
def wsSplitGo : List Char → List Char → List String
  | [], acc => if acc.isEmpty then [] else [String.mk acc.reverse]
  | c :: rest, acc =>
    if c.isWhitespace then
      if acc.isEmpty then wsSplitGo rest []
      else String.mk acc.reverse :: wsSplitGo rest []
    else wsSplitGo rest (c :: acc)

/-- Python `str.split()` with no argument: split on runs of whitespace,
discarding empty fields. -/
def pysplit (s : String) : List String := wsSplitGo s.toList []

/-- Numeric value of a digit string. -/
def digitsVal (cs : List Char) : ℕ :=
  cs.foldl (fun n c => 10 * n + (c.toNat - '0'.toNat)) 0

/-- Python `float(s)` on the decimal/scientific forms used by the
`.grad` codec: optional sign, digits with optional fractional part,
optional exponent.  Returns `none` where Python raises `ValueError`. -/
def pyfloat (s : String) : Option ℚ :=
  let cs := s.toList
  let c0 := cs.headD ' '
  let sgn : ℚ := if c0 = '-' then -1 else 1
  let cs1 := if c0 = '+' || c0 = '-' then cs.tail else cs
  let ip := cs1.takeWhile Char.isDigit
  let cs2 := cs1.dropWhile Char.isDigit
  let hasDot := cs2.headD ' ' = '.'
  let fp := if hasDot then cs2.tail.takeWhile Char.isDigit else []
  let cs3 := if hasDot then cs2.tail.dropWhile Char.isDigit else cs2
  if ip.isEmpty && fp.isEmpty then none
  else
    let mant : ℚ := (digitsVal ip : ℚ) + (digitsVal fp : ℚ) / ((10 : ℚ) ^ fp.length)
    if cs3.isEmpty then some (sgn * mant)
    else if cs3.headD ' ' = 'e' || cs3.headD ' ' = 'E' then
      let r0 := cs3.tail
      let e0 := r0.headD ' '
      let esgn : ℤ := if e0 = '-' then -1 else 1
      let r1 := if e0 = '+' || e0 = '-' then r0.tail else r0
      let ed := r1.takeWhile Char.isDigit
      let tailcs := r1.dropWhile Char.isDigit
      if ed.isEmpty || !tailcs.isEmpty then none
      else some (sgn * mant * (10 : ℚ) ^ (esgn * (digitsVal ed : ℤ)))
    else none

/-- `lerp(arg0, arg1, f)`: linear interpolation, f=0 gives arg0, f=1 gives arg1. -/
def lerp (arg0 arg1 f : ℚ) : ℚ := (1 - f) * arg0 + f * arg1

/-- `rgba_to_hsva(r, g, b, a)`: RGBA → HSVA, hue in [0,1). -/
def rgba_to_hsva (r g b a : ℚ) : ℚ × ℚ × ℚ × ℚ :=
  let max_comp := max r (max g b)
  let min_comp := min r (min g b)
  let h0 : ℚ := 1 / 6
  let h1 :=
    if max_comp ≠ min_comp then
      if r ≥ g ∧ r ≥ b then h0 * (0 + (g - b) / (max_comp - min_comp))
      else if g ≥ b then h0 * (2 + (b - r) / (max_comp - min_comp))
      else h0 * (4 + (r - g) / (max_comp - min_comp))
    else h0
  let h2 := if h1 < 0 then h1 + 1 else h1
  let h3 := if h2 > 1 then h2 - 1 else h2
  let s := if max_comp ≠ 0 then (max_comp - min_comp) / max_comp else 0
  (h3, s, max_comp, a)

/-- `hsva_to_rgba(h_, s, v, a)`: HSVA → RGBA; saturation below `1e-4`
is treated as achromatic. -/
def hsva_to_rgba (h_ s v a : ℚ) : ℚ × ℚ × ℚ × ℚ :=
  let h := h_ * 360
  if s < 1 / 10000 then (v, v, v, a)
  else
    let hue_slice_index := pytrunc (h / 60)
    let hue_frac := h / 60 - hue_slice_index
    let p := v * (1 - s)
    let q := v * (1 - hue_frac * s)
    let t := v * (1 - (1 - hue_frac) * s)
    if hue_slice_index = 0 then (v, t, p, a)
    else if hue_slice_index = 1 then (q, v, p, a)
    else if hue_slice_index = 2 then (p, v, t, a)
    else if hue_slice_index = 3 then (p, q, v, a)
    else if hue_slice_index = 4 then (t, p, v, a)
    else if hue_slice_index = 5 then (v, p, q, a)
    else (v, v, v, a)

/-- The `Color` class: a color stored canonically in HSVA space. -/
structure Color where
  hsva : ℚ × ℚ × ℚ × ℚ
deriving DecidableEq

/-- `Color.__init__`: default color `(0.0, 0.0, 0.5, 1.0)`. -/
def Color.init : Color := ⟨(0, 0, 1/2, 1)⟩

/-- `Color.set_rgba`. -/
def Color.set_rgba (_c : Color) (r g b a : ℚ) : Color := ⟨rgba_to_hsva r g b a⟩

/-- `Color.set_rgb`. -/
def Color.set_rgb (c : Color) (r g b : ℚ) : Color := c.set_rgba r g b 1

/-- `Color.set_hsva`. -/
def Color.set_hsva (_c : Color) (h s v a : ℚ) : Color := ⟨(h, s, v, a)⟩

/-- `Color.get_hsva`. -/
def Color.get_hsva (c : Color) : ℚ × ℚ × ℚ × ℚ := c.hsva

/-- `Color.get_rgba`. -/
def Color.get_rgba (c : Color) : ℚ × ℚ × ℚ × ℚ :=
  hsva_to_rgba c.hsva.1 c.hsva.2.1 c.hsva.2.2.1 c.hsva.2.2.2

/-- Component `i` of an HSVA tuple (`tuple[i]` in the source's
channel-indexed loops; only indices 0..3 occur). -/
def hsvaComp (t : ℚ × ℚ × ℚ × ℚ) (i : ℕ) : ℚ :=
  if i = 0 then t.1 else if i = 1 then t.2.1 else if i = 2 then t.2.2.1 else t.2.2.2

/-- The `ColorControlPoint` class: a fixed position in the gradient
with an assigned color and an active-channel mask. -/
structure ColorControlPoint where
  pos : ℚ
  fixed : Bool
  active_channels : String
  color : Color
deriving DecidableEq

/-- `ColorControlPoint.activate_channels`: append the characters of
`new_channels` that are not already present. -/
def ColorControlPoint.activate_channels_str (base new_channels : String) : String :=
  new_channels.toList.foldl
    (fun acc c => if strContains acc c then acc else acc.push c) base

/-- `ColorControlPoint.__init__(active_channels, fixed)`. -/
def ColorControlPoint.mkNew (active_channels : String) (fixed : Bool) : ColorControlPoint :=
  { pos := 0
    fixed := fixed
    active_channels :=
      if active_channels = "a" then "a"
      else ColorControlPoint.activate_channels_str "rgb" active_channels
    color := Color.init }

/-- `ColorControlPoint.set_pos`: clamp to [0,1]. -/
def ColorControlPoint.set_pos (p : ColorControlPoint) (f : ℚ) : ColorControlPoint :=
  { p with pos := max (min f 1) 0 }

/-- Default control point used for out-of-range list reads (Python
would raise `IndexError`; all verified uses stay in range). -/
def cpDflt : ColorControlPoint := ⟨0, false, "", ⟨(0, 0, 0, 0)⟩⟩

/-- Default `(table index, control point)` pair for out-of-range reads
of the per-channel filtered control-point list. -/
def cpiDflt : ℤ × ColorControlPoint := (0, cpDflt)

/-- The `GradientTableOld` class state: the discretized gradient table
(`table[channel][index]`, RGBA and HSVA variants), the control points,
and the scaling-function state. -/
structure GradientTableOld where
  size : ℕ
  table : List (List ℚ)
  table_hsva : List (List ℚ)
  control_points : List ColorControlPoint
  scaling_function_string : String
  scaling_function_parameter : ℚ
  scaling_function : Option (ℚ → ℚ)

/-- `table[channel][index]` read (both tables are lists of 4 channel
rows). -/
def tableEntry (tbl : List (List ℚ)) (channel idx : ℕ) : ℚ :=
  (tbl.getD channel []).getD idx 0

/-- `GradientTableOld.get_pos_index(f)`: table index of gradient
position f (Python `int(f*(self.size-1))`). -/
def GradientTableOld.get_pos_index (st : GradientTableOld) (f : ℚ) : ℤ :=
  pytrunc (f * ((st.size : ℚ) - 1))

/-- `GradientTableOld.get_index_pos(idx)`: gradient position of table
index idx. -/
def GradientTableOld.get_index_pos (st : GradientTableOld) (idx : ℕ) : ℚ :=
  (idx : ℚ) / ((st.size : ℚ) - 1)

/-- `GradientTableOld.get_color_hsva(idx)`. -/
def GradientTableOld.get_color_hsva (st : GradientTableOld) (idx : ℕ) : ℚ × ℚ × ℚ × ℚ :=
  (tableEntry st.table_hsva 0 idx, tableEntry st.table_hsva 1 idx,
   tableEntry st.table_hsva 2 idx, tableEntry st.table_hsva 3 idx)

/-- `GradientTableOld.get_color(idx)`. -/
def GradientTableOld.get_color (st : GradientTableOld) (idx : ℕ) : ℚ × ℚ × ℚ × ℚ :=
  (tableEntry st.table 0 idx, tableEntry st.table 1 idx,
   tableEntry st.table 2 idx, tableEntry st.table 3 idx)

/-- `GradientTableOld.get_pos_color(f)`: the `Color` at gradient
position f, read from the HSVA table at `get_pos_index(f)` (callers
pass f ∈ [0,1], so the index is non-negative). -/
def GradientTableOld.get_pos_color (st : GradientTableOld) (f : ℚ) : Color :=
  let e := st.get_color_hsva (st.get_pos_index f).toNat
  ⟨(e.1, e.2.1, e.2.2.1, e.2.2.2)⟩

/-- Stable insertion of a control point after all strictly smaller
positions (helper for the stable-by-position sort). -/
def insertCP (p : ColorControlPoint) : List ColorControlPoint → List ColorControlPoint
  | [] => [p]
  | q :: rest => if q.pos < p.pos then q :: insertCP p rest else p :: q :: rest

/-- `GradientTableOld.sort_control_points`: Python's stable sort by
`pos`, as a stable insertion sort. -/
def sortCPs : List ColorControlPoint → List ColorControlPoint
  | [] => []
  | p :: rest => insertCP p (sortCPs rest)

/-- Loop state of the per-channel interpolation walk in
`GradientTableOld.update` (`start_point`/`end_point` bracketing pair,
their positions, and `next_interval_begin_idx`). -/
structure LoopSt where
  end_id : ℕ
  start_point : ColorControlPoint
  end_point : ColorControlPoint
  start_pos : ℚ
  end_pos : ℚ
  next_idx : ℤ

/-- The inner `while k == next_interval_begin_idx` loop of
`GradientTableOld.update`: advance the bracketing pair while the table
index k sits on the next interval boundary.  `fuel` bounds the number
of advances (the callers pass `cpi.length + 1`, enough for every state
the source reaches; Python instead raises `IndexError` past the end). -/
def advanceCh (cpi : List (ℤ × ColorControlPoint)) (k : ℕ) : ℕ → LoopSt → LoopSt
  | 0, s => s
  | fuel + 1, s =>
    if (k : ℤ) = s.next_idx then
      let eid := s.end_id + 1
      let e := cpi.getD eid cpiDflt
      advanceCh cpi k fuel
        { end_id := eid
          start_point := s.end_point
          end_point := e.2
          start_pos := s.end_pos
          end_pos := e.2.pos
          next_idx := 1 + e.1 }
    else s

/-- The `for k in range(self.size)` body of the per-channel loop of
`GradientTableOld.update`: emits the interpolated channel value for
each table index `k, k+1, ...` (fuel counts the remaining indices). -/
def chanGo (size : ℕ) (cpi : List (ℤ × ColorControlPoint)) (ci : ℕ) :
    ℕ → ℕ → LoopSt → List ℚ
  | _, 0, _ => []
  | k, fuel + 1, s =>
    let s' := advanceCh cpi k (cpi.length + 1) s
    let cur_pos := (k : ℚ) / ((size : ℚ) - 1)
    let f := (cur_pos - s'.start_pos) / (s'.end_pos - s'.start_pos)
    lerp (hsvaComp s'.start_point.color.hsva ci) (hsvaComp s'.end_point.color.hsva ci) f
      :: chanGo size cpi ci (k + 1) fuel s'

/-- Initial loop state of the per-channel walk (`start_point_id = -1`,
`end_point_id = 0`, dummy positions 0, `end_point` preset to the first
filtered control point; `start_point` is uninitialized in the source
and is overwritten before first use, here preset to the same point). -/
def chanInit (cpi : List (ℤ × ColorControlPoint)) : LoopSt :=
  { end_id := 0
    start_point := (cpi.getD 0 cpiDflt).2
    end_point := (cpi.getD 0 cpiDflt).2
    start_pos := 0
    end_pos := 0
    next_idx := 0 }

/-- One channel row of `table_hsva` as recomputed by
`GradientTableOld.update`. -/
def chanRun (size : ℕ) (cpi : List (ℤ × ColorControlPoint)) (ci : ℕ) : List ℚ :=
  chanGo size cpi ci 0 size (chanInit cpi)

/-- `control_point_indices_total` of `GradientTableOld.update`: each
control point paired with its table index `get_pos_index(point.pos)`. -/
def GradientTableOld.updatePlacement (st : GradientTableOld) :
    List (ℤ × ColorControlPoint) :=
  st.control_points.map (fun p => (st.get_pos_index p.pos, p))

/-- `GradientTableOld.update()`: recompute `table_hsva` channel-wise
from the control points active on each channel, then convert every
table row to RGBA into `table`. -/
def GradientTableOld.update (st : GradientTableOld) : GradientTableOld :=
  let cpit := st.updatePlacement
  let row := fun (c : Char) (ci : ℕ) =>
    chanRun st.size (cpit.filter (fun x => strContains x.2.active_channels c)) ci
  let th := [row 'h' 0, row 's' 1, row 'v' 2, row 'a' 3]
  let rows := (List.range st.size).map (fun k =>
    hsva_to_rgba (tableEntry th 0 k) (tableEntry th 1 k) (tableEntry th 2 k)
      (tableEntry th 3 k))
  let t := [rows.map (fun x => x.1), rows.map (fun x => x.2.1),
            rows.map (fun x => x.2.2.1), rows.map (fun x => x.2.2.2)]
  { st with table_hsva := th, table := t }

/-- `GradientTableOld.scaling_parameters_changed()`: clear the
compiled function, then recompile `scaling_function_string` (the
`exec`-based compiler is the abstract `compile` parameter).  Returns
the mutated state and the raised message, if any. -/
def GradientTableOld.scaling_parameters_changed
    (compile : String → ℚ → Option (ℚ → ℚ)) (st : GradientTableOld) :
    GradientTableOld × Option String :=
  let st := { st with scaling_function := none }
  let def_string := "def ParamFn(x): return " ++ st.scaling_function_string ++ " "
  if st.scaling_function_string = "" then (st, none)
  else
    match compile st.scaling_function_string st.scaling_function_parameter with
    | some fn => ({ st with scaling_function := some fn }, none)
    | none => (st, some ("failed to compile function: " ++ def_string))

/-- `GradientTableOld.set_scaling_function_parameter`. -/
def GradientTableOld.set_scaling_function_parameter
    (compile : String → ℚ → Option (ℚ → ℚ)) (st : GradientTableOld)
    (new_parameter : ℚ) : GradientTableOld × Option String :=
  GradientTableOld.scaling_parameters_changed compile
    { st with scaling_function_parameter := new_parameter }

/-- `GradientTableOld.set_scaling_function`. -/
def GradientTableOld.set_scaling_function
    (compile : String → ℚ → Option (ℚ → ℚ)) (st : GradientTableOld)
    (new_function_string : String) : GradientTableOld × Option String :=
  GradientTableOld.scaling_parameters_changed compile
    { st with scaling_function_string := new_function_string }

/-- The `GradientTable` class state (delegating strategy): the
external `ColorTransferFunction` is modelled as its list of HSV
keyframes `(pos, h, s, v)` and the external `PiecewiseFunction` as its
list of `(pos, alpha)` keyframes. -/
structure GradientTable where
  size : ℕ
  table : List (ℚ × ℚ × ℚ × ℚ)
  alpha : List (ℚ × ℚ)
  control_points : List ColorControlPoint
  scaling_function_string : String
  scaling_function_parameter : ℚ
deriving DecidableEq

/-- `GradientTable.update()`: clear both external functions, then
replay the control points in order, adding an HSV keyframe for every
point whose mask is not exactly `"a"` and an alpha keyframe for every
point whose mask contains `'a'`. -/
def GradientTable.update (st : GradientTable) : GradientTable :=
  let table := st.control_points.filterMap (fun point =>
    if point.active_channels ≠ "a" then
      some (point.pos, point.color.get_hsva.1, point.color.get_hsva.2.1,
            point.color.get_hsva.2.2.1)
    else none)
  let alpha := st.control_points.filterMap (fun point =>
    if strContains point.active_channels 'a' then
      some (point.pos, point.color.get_hsva.2.2.2)
    else none)
  { st with table := table, alpha := alpha }

/-- `GradientTable.scaling_parameters_changed`: `raise NotImplementedError`. -/
def GradientTable.scaling_parameters_changed (st : GradientTable) :
    GradientTable × Option String :=
  (st, some "NotImplementedError")

/-- `GradientTable.set_scaling_function_parameter`: `raise NotImplementedError`. -/
def GradientTable.set_scaling_function_parameter (st : GradientTable)
    (_new_parameter : ℚ) : GradientTable × Option String :=
  (st, some "NotImplementedError")

/-- `GradientTable.set_scaling_function`: `raise NotImplementedError`. -/
def GradientTable.set_scaling_function (st : GradientTable)
    (_new_function_string : String) : GradientTable × Option String :=
  (st, some "NotImplementedError")

/-- The control-point parsing loop of `GradientTableOld.load`: each
line must split into at least 7 whitespace-separated fields
`pos fixed bindings h s v a`; a shorter line raises the "gradient file
format broken" `ValueError` carrying the line, an unparsable float
raises `ValueError`.  (Python's `readline`-at-EOF empty string is the
end of the list here; real file lines always carry a newline, so the
`len(cur_line) == 0` break corresponds exactly to list exhaustion.) -/
def parseCPLines : List String → Except String (List ColorControlPoint)
  | [] => .ok []
  | cur_line :: rest =>
    let args := pysplit cur_line
    if args.length < 7 then
      .error ("gradient file format broken at line:\n" ++ cur_line)
    else
      match pyfloat (args.getD 0 ""), pyfloat (args.getD 3 ""), pyfloat (args.getD 4 ""),
            pyfloat (args.getD 5 ""), pyfloat (args.getD 6 "") with
      | some p, some h, some s, some v, some a =>
        let new_point :=
          { (ColorControlPoint.mkNew "" false).set_pos p with
            fixed := args.getD 1 "" = "True"
            active_channels := args.getD 2 ""
            color := Color.init.set_hsva h s v a }
        (parseCPLines rest).map (new_point :: ·)
      | _, _, _, _, _ => .error "ValueError"

/-- `GradientTableOld.load(file_name)`: parse the version tag, the
(version ≥ 1.1) scaling-function header, skip the `ControlPoints:`
header line, parse the control points, then sort, recompile the
scaling function and update.  The file is its list of lines (without
trailing newlines); the returned state carries every attribute
assignment made before a raise, exactly as in the source, where
`self.scaling_function_string` and `self.scaling_function_parameter`
are written before the control-point lines are examined. -/
def GradientTableOld.load (compile : String → ℚ → Option (ℚ → ℚ))
    (st : GradientTableOld) (lines : List String) :
    GradientTableOld × Option String :=
  match lines with
  | [] => (st, some "IndexError")
  | version_tag :: rest =>
    match (pysplit version_tag).get? 1 with
    | none => (st, some "IndexError")
    | some vtok =>
      match pyfloat vtok with
      | none => (st, some "ValueError")
      | some v0 =>
        let version := v0 + 1 / 100000
        if version ≥ 11 / 10 then
          let function_line_split := pysplit (rest.headD "")
          let rest := rest.tail
          let parameter_line := rest.headD ""
          let rest := rest.tail
          let st := { st with scaling_function_string :=
            if function_line_split.length = 2 then function_line_split.getD 1 ""
            else "" }
          match (pysplit parameter_line).get? 1 with
          | none => (st, some "IndexError")
          | some ptok =>
            match pyfloat ptok with
            | none => (st, some "ValueError")
            | some pval =>
              let st := { st with scaling_function_parameter := pval }
              loadBody compile st rest
        else
          let st := { st with scaling_function_string := "",
                              scaling_function_parameter := 1 / 2 }
          loadBody compile st rest
where
  /-- the part of `load` after the version-dependent header: skip one
  line, parse the control points, then sort, recompile and update. -/
  loadBody (compile : String → ℚ → Option (ℚ → ℚ)) (st : GradientTableOld)
      (rest : List String) : GradientTableOld × Option String :=
    match parseCPLines rest.tail with
    | .error msg => (st, some msg)
    | .ok new_control_points =>
      let st := { st with control_points := sortCPs new_control_points }
      match GradientTableOld.scaling_parameters_changed compile st with
      | (st2, some err) => (st2, some err)
      | (st2, none) => (st2.update, none)

/-- An otherwise-empty legacy table state of a given size (tables are
recomputed wholesale by `update`, so their initial contents are
irrelevant to the verified properties). -/
def sampleGTO (n : ℕ) : GradientTableOld :=
  { size := n, table := [], table_hsva := [], control_points := []
    scaling_function_string := "", scaling_function_parameter := 1 / 2
    scaling_function := none }

/-- A compiler stub that rejects every expression (models `exec`
raising on a malformed expression string). -/
def compileNone : String → ℚ → Option (ℚ → ℚ) := fun _ _ => none

/-- A legacy table state currently holding a compiled scaling
function. -/
def gtoWithFn : GradientTableOld :=
  { sampleGTO 2 with scaling_function_string := "x",
                     scaling_function := some (fun x => x) }

/-- Boolean well-formedness of one `.grad` control-point line: at
least 7 fields and parsable floats in the positions `load` reads. -/
def cpLineOkB (l : String) : Bool :=
  7 ≤ (pysplit l).length
    && (pyfloat ((pysplit l).getD 0 "")).isSome
    && (pyfloat ((pysplit l).getD 3 "")).isSome
    && (pyfloat ((pysplit l).getD 4 "")).isSome
    && (pyfloat ((pysplit l).getD 5 "")).isSome
    && (pyfloat ((pysplit l).getD 6 "")).isSome

/-- The left boundary control point of `GradientTableOld.__init__`:
fixed, all channels, black. -/
def leftBoundaryCP : ColorControlPoint :=
  let p := (ColorControlPoint.mkNew "hsva" true).set_pos 0
  { p with color := p.color.set_rgb 0 0 0 }

/-- The right boundary control point of `GradientTableOld.__init__`:
fixed, all channels, white. -/
def rightBoundaryCP : ColorControlPoint :=
  let p := (ColorControlPoint.mkNew "hsva" true).set_pos 1
  { p with color := p.color.set_rgb 1 1 1 }

/-- A 256-entry legacy table whose control points are exactly the two
boundary points (black at 0.0, white at 1.0, both alpha 1). -/
def gto256 : GradientTableOld :=
  { sampleGTO 256 with control_points := [leftBoundaryCP, rightBoundaryCP] }

/-- The illustrative interior control point of
`GradientTableOld.__init__`: movable, h/s/v channels only, orange at
position 0.4. -/
def orangeCP : ColorControlPoint :=
  let p := (ColorControlPoint.mkNew "hsv" false).set_pos (2/5)
  { p with color := p.color.set_rgb 1 (2/5) 0 }

/-- A small legacy table with both boundary points and one interior
point (the initial state of a 4-entry editor). -/
def gtoWithMid : GradientTableOld :=
  { sampleGTO 4 with control_points := [leftBoundaryCP, orangeCP, rightBoundaryCP] }

/-- A legacy table state with previously loaded gradient state: one
interior control point, a scaling-function string `"x"` and parameter
1/4 (for exercising `load` on a broken file). -/
def gtoLoaded : GradientTableOld :=
  { sampleGTO 4 with scaling_function_string := "x", scaling_function_parameter := 1/4,
                     control_points := [leftBoundaryCP, rightBoundaryCP] }

/-- A `.grad` file (as lines) whose last control-point line has only
5 whitespace-separated fields. -/
def gradLinesBad : List String :=
  ["V 2.0 Color Gradient File", "ScalingFunction: x**2", "ScalingParameter: 0.75",
   "ControlPoints: (pos fixed bindings h s v a)",
   "0.0 True rgbhsva 0.166666 0.0 0.0 1.0",
   "0.5 True hsva 0.1 0.2"]

/-- C10: for saturation `0 ≤ s < 1e-4`, `hsva_to_rgba` returns exactly
`(v, v, v, a)`, independent of the hue `h ∈ [0,1]`: strictly positive
saturations below the threshold are treated as achromatic and the hue
is discarded. -/
theorem hsva_to_rgba_achromatic_threshold (h s v a : ℚ)
    (hh0 : 0 ≤ h) (hh1 : h ≤ 1) (hs0 : 0 ≤ s) (hs1 : s < 1 / 10000) :
    hsva_to_rgba h s v a = (v, v, v, a) := by
  simp only [hsva_to_rgba]
  rw [if_pos hs1]

/-- Witness for C10 at `h = 1/2`, `s = 1/20000`, `v = 3/4`, `a = 1`. -/
theorem hsva_to_rgba_achromatic_threshold_witness :
    ((0:ℚ) ≤ 1/2 ∧ (1/2:ℚ) ≤ 1 ∧ (0:ℚ) ≤ 1/20000 ∧ (1/20000:ℚ) < 1/10000) ∧
    hsva_to_rgba (1/2) (1/20000) (3/4) 1 = (3/4, 3/4, 3/4, 1) :=
  ⟨by decide, hsva_to_rgba_achromatic_threshold (1/2) (1/20000) (3/4) 1
    (by decide) (by decide) (by decide) (by decide)⟩

/-- C2 counterexample: converting an achromatic RGBA input does
overwrite the stored hue.  A color holding hue 1/2 gets hue 1/6 after
`set_rgba(0.5, 0.5, 0.5, 1)`, so the hue is not the one held before
the call. -/
theorem set_rgba_achromatic_overwrites_hue :
    ((Color.mk (1/2, 0, 1/2, 1)).set_rgba (1/2) (1/2) (1/2) 1).hsva.1 ≠
      (Color.mk (1/2, 0, 1/2, 1)).hsva.1 := by decide

/-- C2 amended: on an achromatic input (r = g = b), `set_rgba` stores
hue = 1/6 (the constant the conversion initializes `h` with),
saturation 0 and value the common component, regardless of the
previously stored hue. -/
theorem set_rgba_achromatic (c : Color) (r a : ℚ) :
    (c.set_rgba r r r a).hsva = (1/6, 0, r, a) := by
  simp only [Color.set_rgba, rgba_to_hsva, max_self, min_self, ne_eq, not_true_eq_false,
    if_false, sub_self, zero_div, ite_self]
  norm_num

/-- C4 counterexample: the exact-index query uses `int()` truncation,
not round-to-nearest: at table size 3 and f = 0.9 it returns index 1
while `round(f*(N-1)) = round(1.8) = 2`. -/
theorem get_pos_index_not_round :
    (sampleGTO 3).get_pos_index (9/10) ≠
      round ((9/10) * (((sampleGTO 3).size : ℚ) - 1)) := by decide

/-- C4 amended: for `f ≥ 0` and table size `N ≥ 1`, `get_pos_index`
maps f to `⌊f*(N-1)⌋` (truncation toward zero, which is the floor on
non-negative arguments), and `update()` places each control point at
the table index given by this same mapping. -/
theorem get_pos_index_floor (st : GradientTableOld) (f : ℚ)
    (h0 : 0 ≤ f) (hsize : 1 ≤ st.size)
    (hcp : ∀ p ∈ st.control_points, 0 ≤ p.pos) :
    st.get_pos_index f = ⌊f * ((st.size : ℚ) - 1)⌋ ∧
    st.updatePlacement =
      st.control_points.map (fun p => (⌊p.pos * ((st.size : ℚ) - 1)⌋, p)) := by
  have hsz : (0:ℚ) ≤ (st.size : ℚ) - 1 := by
    have : (1:ℚ) ≤ (st.size : ℚ) := by exact_mod_cast hsize
    linarith
  constructor
  · unfold GradientTableOld.get_pos_index pytrunc
    rw [if_pos (mul_nonneg h0 hsz)]
  · unfold GradientTableOld.updatePlacement
    refine List.map_congr_left (fun p hp => ?_)
    unfold GradientTableOld.get_pos_index pytrunc
    rw [if_pos (mul_nonneg (hcp p hp) hsz)]

/-- Witness for C4 amended at size 4 and f = 9/10. -/
theorem get_pos_index_floor_witness :
    ((0:ℚ) ≤ 9/10 ∧ 1 ≤ gtoLoaded.size ∧ ∀ p ∈ gtoLoaded.control_points, 0 ≤ p.pos) ∧
    (gtoLoaded.get_pos_index (9/10) = ⌊(9/10) * ((gtoLoaded.size : ℚ) - 1)⌋ ∧
     gtoLoaded.updatePlacement =
       gtoLoaded.control_points.map (fun p => (⌊p.pos * ((gtoLoaded.size : ℚ) - 1)⌋, p))) :=
  ⟨by decide, get_pos_index_floor gtoLoaded (9/10) (by decide) (by decide) (by decide)⟩

/-- C7: `update()` is idempotent on the derived state: a second
`update()` with no intervening mutation leaves the RGBA and HSVA
tables of the legacy strategy and the replayed keyframe lists of the
delegating strategy identical. -/
theorem update_idempotent (stO : GradientTableOld) (stN : GradientTable) :
    (stO.update.update.table_hsva = stO.update.table_hsva ∧
     stO.update.update.table = stO.update.table) ∧
    (stN.update.update.table = stN.update.table ∧
     stN.update.update.alpha = stN.update.alpha) :=
  ⟨⟨rfl, rfl⟩, ⟨rfl, rfl⟩⟩

/-- C8: on the delegating strategy, setting a scaling function or its
parameter always raises `NotImplementedError` and leaves the state
untouched — never a silent no-op. -/
theorem gradient_table_scaling_not_supported (st : GradientTable)
    (new_function_string : String) (new_parameter : ℚ) :
    st.set_scaling_function new_function_string = (st, some "NotImplementedError") ∧
    st.set_scaling_function_parameter new_parameter = (st, some "NotImplementedError") :=
  ⟨rfl, rfl⟩

/-- C3 counterexample: after `set_scaling_function` fails to compile,
the table does NOT still hold the previously compiled callable: the
compiled scaling function has been cleared to `None` (the error is
raised, but the old callable is lost). -/
theorem set_scaling_function_clears_compiled :
    ((GradientTableOld.set_scaling_function compileNone gtoWithFn "x**(").1.scaling_function.isNone
        = true) ∧
    (gtoWithFn.scaling_function.isNone = false) ∧
    ((GradientTableOld.set_scaling_function compileNone gtoWithFn "x**(").2.isSome = true) := by
  decide

/-- C3 amended: `set_scaling_function` with an expression that fails
to compile raises the compile error, and afterwards the compiled
scaling function is `None` (cleared before the compile attempt) and
the stored expression string is the new, malformed one; control points
and the parameter are untouched. -/
theorem set_scaling_function_compile_error (compile : String → ℚ → Option (ℚ → ℚ))
    (st : GradientTableOld) (s : String) (hne : s ≠ "")
    (hc : compile s st.scaling_function_parameter = none) :
    GradientTableOld.set_scaling_function compile st s =
      ({ st with scaling_function_string := s, scaling_function := none },
       some ("failed to compile function: " ++ ("def ParamFn(x): return " ++ s ++ " "))) := by
  unfold GradientTableOld.set_scaling_function GradientTableOld.scaling_parameters_changed
  simp only [hne, if_false, hc]

/-- Witness for C3 amended: `gtoWithFn` with the malformed `"x**("`. -/
theorem set_scaling_function_compile_error_witness :
    ("x**(" ≠ "" ∧ compileNone "x**(" gtoWithFn.scaling_function_parameter = none) ∧
    GradientTableOld.set_scaling_function compileNone gtoWithFn "x**(" =
      ({ gtoWithFn with scaling_function_string := "x**(", scaling_function := none },
       some ("failed to compile function: " ++ ("def ParamFn(x): return " ++ "x**(" ++ " "))) :=
  ⟨⟨by decide, rfl⟩,
   set_scaling_function_compile_error compileNone gtoWithFn "x**(" (by decide) rfl⟩

set_option maxRecDepth 40000

/-- C9: a 256-entry legacy table over exactly the two boundary points
(black at 0.0, white at 1.0, alpha 1) yields, after `update()`,
entry 0 = (0,0,0,1), entry 255 = (1,1,1,1) and entry 128 =
(128/255, 128/255, 128/255, 1), which is within 1/255 of
(0.5, 0.5, 0.5, 1). -/
theorem two_point_table_256 :
    gto256.update.get_color 0 = (0, 0, 0, 1) ∧
    gto256.update.get_color 255 = (1, 1, 1, 1) ∧
    gto256.update.get_color 128 = (128/255, 128/255, 128/255, 1) ∧
    |(128 : ℚ)/255 - 1/2| ≤ 1/255 := by decide

/-- If every line of `good` is a well-formed control-point line and
`bad` has fewer than 7 fields, the parsing loop fails at `bad` with
the message carrying that line. -/
theorem parseCPLines_first_short (good : List String) (bad : String) (rest : List String)
    (hgood : ∀ l ∈ good, cpLineOkB l = true) (hbad : (pysplit bad).length < 7) :
    parseCPLines (good ++ bad :: rest) =
      .error ("gradient file format broken at line:\n" ++ bad) := by
  induction good with
  | nil =>
    simp only [List.nil_append, parseCPLines]
    rw [if_pos hbad]
  | cons l ls ih =>
    have hl := hgood l (List.mem_cons_self l ls)
    simp only [cpLineOkB, Bool.and_eq_true, decide_eq_true_eq] at hl
    obtain ⟨⟨⟨⟨⟨h7, h0⟩, h3⟩, h4⟩, h5⟩, h6⟩ := hl
    obtain ⟨p0, hp0⟩ := Option.isSome_iff_exists.mp h0
    obtain ⟨p3, hp3⟩ := Option.isSome_iff_exists.mp h3
    obtain ⟨p4, hp4⟩ := Option.isSome_iff_exists.mp h4
    obtain ⟨p5, hp5⟩ := Option.isSome_iff_exists.mp h5
    obtain ⟨p6, hp6⟩ := Option.isSome_iff_exists.mp h6
    simp only [List.cons_append, parseCPLines]
    rw [if_neg (by omega)]
    simp only [hp0, hp3, hp4, hp5, hp6, List.append_eq]
    rw [ih (fun x hx => hgood x (List.mem_cons_of_mem l hx))]
    rfl

/-- C1 amended: loading a version ≥ 1.1 file whose control-point
section has a first malformed line (fewer than 7 fields, after any
number of well-formed lines) raises the parse error whose message
contains that line, and leaves the control points, tables and the
compiled scaling function unchanged — but the scaling-function string
and the scaling parameter have already been overwritten from the file
header before the error is raised. -/
theorem load_short_line_partial_mutation
    (compile : String → ℚ → Option (ℚ → ℚ)) (st : GradientTableOld)
    (vline fnline pline hline bad : String) (good rest : List String)
    (vtok ptok : String) (v0 pval : ℚ)
    (hv1 : (pysplit vline).get? 1 = some vtok) (hv2 : pyfloat vtok = some v0)
    (hv3 : 11/10 ≤ v0 + 1/100000)
    (hp1 : (pysplit pline).get? 1 = some ptok) (hp2 : pyfloat ptok = some pval)
    (hgood : ∀ l ∈ good, cpLineOkB l = true)
    (hbad : (pysplit bad).length < 7) :
    GradientTableOld.load compile st
        (vline :: fnline :: pline :: hline :: (good ++ bad :: rest)) =
      ({ st with
          scaling_function_string :=
            if (pysplit fnline).length = 2 then (pysplit fnline).getD 1 "" else "",
          scaling_function_parameter := pval },
       some ("gradient file format broken at line:\n" ++ bad)) := by
  simp only [GradientTableOld.load, hv1, hv2, List.headD_cons, List.tail_cons]
  rw [if_pos hv3]
  simp only [hp1, hp2, GradientTableOld.load.loadBody, List.tail_cons]
  rw [parseCPLines_first_short good bad rest hgood hbad]

/-- Witness for C1 amended: `gtoLoaded` and the concrete broken file
`gradLinesBad` (one good control-point line, then a 5-field line). -/
theorem load_short_line_partial_mutation_witness :
    ((pysplit "V 2.0 Color Gradient File").get? 1 = some "2.0" ∧
     pyfloat "2.0" = some 2 ∧
     (11/10 : ℚ) ≤ 2 + 1/100000 ∧
     (pysplit "ScalingParameter: 0.75").get? 1 = some "0.75" ∧
     pyfloat "0.75" = some (3/4) ∧
     (∀ l ∈ ["0.0 True rgbhsva 0.166666 0.0 0.0 1.0"], cpLineOkB l = true) ∧
     (pysplit "0.5 True hsva 0.1 0.2").length < 7) ∧
    GradientTableOld.load compileNone gtoLoaded gradLinesBad =
      ({ gtoLoaded with
          scaling_function_string :=
            if (pysplit "ScalingFunction: x**2").length = 2
            then (pysplit "ScalingFunction: x**2").getD 1 "" else "",
          scaling_function_parameter := 3/4 },
       some ("gradient file format broken at line:\n" ++ "0.5 True hsva 0.1 0.2")) :=
  ⟨by decide,
   load_short_line_partial_mutation compileNone gtoLoaded
     "V 2.0 Color Gradient File" "ScalingFunction: x**2" "ScalingParameter: 0.75"
     "ControlPoints: (pos fixed bindings h s v a)" "0.5 True hsva 0.1 0.2"
     ["0.0 True rgbhsva 0.166666 0.0 0.0 1.0"] []
     "2.0" "0.75" 2 (3/4)
     (by decide) (by decide) (by decide) (by decide) (by decide) (by decide) (by decide)⟩

/-- C1 counterexample: on `gtoLoaded` (previously loaded state with
scaling string `"x"`, parameter 1/4) and a file whose control-point
section has a 5-field line, `load` does raise the parse error naming
the line, but the previously loaded gradient state is NOT left
unchanged: the scaling-function string and scaling parameter already
hold the values from the file header. -/
theorem load_short_line_mutates_scaling_state :
    (GradientTableOld.load compileNone gtoLoaded gradLinesBad).2 =
      some ("gradient file format broken at line:\n" ++ "0.5 True hsva 0.1 0.2") ∧
    (GradientTableOld.load compileNone gtoLoaded gradLinesBad).1.scaling_function_string ≠
      gtoLoaded.scaling_function_string ∧
    (GradientTableOld.load compileNone gtoLoaded gradLinesBad).1.scaling_function_parameter ≠
      gtoLoaded.scaling_function_parameter ∧
    (GradientTableOld.load compileNone gtoLoaded gradLinesBad).1.control_points =
      gtoLoaded.control_points := by decide

/-- Evaluation of `hsva_to_rgba` on a chromatic input whose hue falls
in slice `n` (`n ≤ 6h < n+1`): selects the slice's permutation of
`(v, p, q, t)`. -/
theorem hsva_to_rgba_eval (h s v a : ℚ) (hs : ¬ s < 1/10000) (n : ℤ)
    (hn0 : 0 ≤ n) (hl : (n : ℚ) ≤ 6 * h) (hu : 6 * h < (n : ℚ) + 1) :
    hsva_to_rgba h s v a =
      (if n = 0 then (v, v * (1 - (1 - (6*h - n)) * s), v * (1 - s), a)
       else if n = 1 then (v * (1 - (6*h - n) * s), v, v * (1 - s), a)
       else if n = 2 then (v * (1 - s), v, v * (1 - (1 - (6*h - n)) * s), a)
       else if n = 3 then (v * (1 - s), v * (1 - (6*h - n) * s), v, a)
       else if n = 4 then (v * (1 - (1 - (6*h - n)) * s), v * (1 - s), v, a)
       else if n = 5 then (v, v * (1 - s), v * (1 - (6*h - n) * s), a)
       else (v, v, v, a)) := by
  have h60 : h * 360 / 60 = 6 * h := by ring
  have htr : pytrunc (h * 360 / 60) = n := by
    unfold pytrunc
    rw [h60, if_pos (le_trans (by exact_mod_cast hn0) hl)]
    rw [Int.floor_eq_iff]
    exact ⟨hl, by push_cast; linarith⟩
  simp only [hsva_to_rgba]
  rw [if_neg hs, htr, h60]

/-- `rgba_to_hsva` when red is the maximum and blue the minimum
(`b ≤ g ≤ r`, `b < r`). -/
theorem rgba_to_hsva_caseA1 (r g b a : ℚ) (hb0 : 0 ≤ b) (hbg : b ≤ g) (hgr : g ≤ r)
    (hbr : b < r) :
    rgba_to_hsva r g b a = (1/6 * (0 + (g - b) / (r - b)), (r - b) / r, r, a) := by
  have hgmax : max g b = g := max_eq_left hbg
  have hrmax : max r g = r := max_eq_left hgr
  have hgmin : min g b = b := min_eq_right hbg
  have hrmin : min r b = b := min_eq_right hbr.le
  have hr0 : 0 < r := lt_of_le_of_lt hb0 hbr
  have hdiv1 : (g - b) / (r - b) ≤ 1 := by
    rw [div_le_one (sub_pos.mpr hbr)]; linarith
  have hdiv0 : 0 ≤ (g - b) / (r - b) :=
    div_nonneg (by linarith) (by linarith)
  simp only [rgba_to_hsva, hgmax, hrmax, hgmin, hrmin]
  rw [if_pos (show r ≠ b from hbr.ne'),
      if_pos (show r ≥ g ∧ r ≥ b from ⟨hgr, le_trans hbg hgr⟩),
      if_neg (by linarith : ¬ (1:ℚ)/6 * (0 + (g - b) / (r - b)) < 0),
      if_neg (by linarith : ¬ (1:ℚ)/6 * (0 + (g - b) / (r - b)) > 1),
      if_pos hr0.ne']

/-- `rgba_to_hsva` when red is the maximum and green the minimum
(`g < b ≤ r`): the raw hue is negative and wraps by +1. -/
theorem rgba_to_hsva_caseA2 (r g b a : ℚ) (hg0 : 0 ≤ g) (hgb : g < b) (hbr : b ≤ r) :
    rgba_to_hsva r g b a = (1/6 * (0 + (g - b) / (r - g)) + 1, (r - g) / r, r, a) := by
  have hgr : g < r := lt_of_lt_of_le hgb hbr
  have hbmax : max g b = b := max_eq_right hgb.le
  have hrmax : max r b = r := max_eq_left hbr
  have hgmin : min g b = g := min_eq_left hgb.le
  have hrmin : min r g = g := min_eq_right hgr.le
  have hr0 : 0 < r := lt_of_le_of_lt hg0 hgr
  have hneg : (g - b) / (r - g) < 0 :=
    div_neg_of_neg_of_pos (by linarith) (by linarith)
  simp only [rgba_to_hsva, hbmax, hrmax, hgmin, hrmin]
  rw [if_pos (show r ≠ g from hgr.ne'),
      if_pos (show r ≥ g ∧ r ≥ b from ⟨hgr.le, hbr⟩),
      if_pos (by linarith : (1:ℚ)/6 * (0 + (g - b) / (r - g)) < 0),
      if_neg (by linarith : ¬ (1:ℚ)/6 * (0 + (g - b) / (r - g)) + 1 > 1),
      if_pos hr0.ne']

/-- `rgba_to_hsva` when green is the maximum and red the minimum
(`r ≤ b ≤ g`, `r < g`). -/
theorem rgba_to_hsva_caseB1 (r g b a : ℚ) (hr0 : 0 ≤ r) (hrb : r ≤ b) (hbg : b ≤ g)
    (hrg : r < g) :
    rgba_to_hsva r g b a = (1/6 * (2 + (b - r) / (g - r)), (g - r) / g, g, a) := by
  have hgmax : max g b = g := max_eq_left hbg
  have hrmax : max r g = g := max_eq_right hrg.le
  have hbmin : min g b = b := min_eq_right hbg
  have hrmin : min r b = r := min_eq_left hrb
  have hg0 : 0 < g := lt_of_le_of_lt hr0 hrg
  have hx0 : 0 ≤ (b - r) / (g - r) := div_nonneg (by linarith) (by linarith)
  have hx1 : (b - r) / (g - r) ≤ 1 := by
    rw [div_le_one (by linarith : (0:ℚ) < g - r)]; linarith
  simp only [rgba_to_hsva, hgmax, hrmax, hbmin, hrmin]
  rw [if_pos (show g ≠ r from hrg.ne'),
      if_neg (show ¬ (r ≥ g ∧ r ≥ b) from fun hc => absurd hc.1 (not_le.mpr hrg)),
      if_pos hbg,
      if_neg (by linarith : ¬ (1:ℚ)/6 * (2 + (b - r) / (g - r)) < 0),
      if_neg (by linarith : ¬ (1:ℚ)/6 * (2 + (b - r) / (g - r)) > 1),
      if_pos hg0.ne']

/-- `rgba_to_hsva` when green is the maximum and blue the minimum
(`b < r < g`). -/
theorem rgba_to_hsva_caseB2 (r g b a : ℚ) (hb0 : 0 ≤ b) (hbr : b < r) (hrg : r < g) :
    rgba_to_hsva r g b a = (1/6 * (2 + (b - r) / (g - b)), (g - b) / g, g, a) := by
  have hgmax : max g b = g := max_eq_left (by linarith)
  have hrmax : max r g = g := max_eq_right hrg.le
  have hbmin : min g b = b := min_eq_right (by linarith)
  have hrmin : min r b = b := min_eq_right hbr.le
  have hg0 : 0 < g := by linarith
  have hx1 : -1 < (b - r) / (g - b) := by
    rw [lt_div_iff (by linarith : (0:ℚ) < g - b)]; linarith
  have hx0 : (b - r) / (g - b) < 0 :=
    div_neg_of_neg_of_pos (by linarith) (by linarith)
  simp only [rgba_to_hsva, hgmax, hrmax, hbmin, hrmin]
  rw [if_pos (show g ≠ b from (by linarith : b < g).ne'),
      if_neg (show ¬ (r ≥ g ∧ r ≥ b) from fun hc => absurd hc.1 (not_le.mpr hrg)),
      if_pos (by linarith : g ≥ b),
      if_neg (by linarith : ¬ (1:ℚ)/6 * (2 + (b - r) / (g - b)) < 0),
      if_neg (by linarith : ¬ (1:ℚ)/6 * (2 + (b - r) / (g - b)) > 1),
      if_pos hg0.ne']

/-- `rgba_to_hsva` when blue is the maximum and green the minimum
(`g ≤ r < b`). -/
theorem rgba_to_hsva_caseC1 (r g b a : ℚ) (hg0 : 0 ≤ g) (hgr : g ≤ r) (hrb : r < b) :
    rgba_to_hsva r g b a = (1/6 * (4 + (r - g) / (b - g)), (b - g) / b, b, a) := by
  have hgb : g < b := lt_of_le_of_lt hgr hrb
  have hbmax : max g b = b := max_eq_right hgb.le
  have hrmax : max r b = b := max_eq_right hrb.le
  have hgmin : min g b = g := min_eq_left hgb.le
  have hrmin : min r g = g := min_eq_right hgr
  have hb0 : 0 < b := lt_of_le_of_lt hg0 hgb
  have hx0 : 0 ≤ (r - g) / (b - g) := div_nonneg (by linarith) (by linarith)
  have hx1 : (r - g) / (b - g) < 1 := by
    rw [div_lt_one (by linarith : (0:ℚ) < b - g)]; linarith
  simp only [rgba_to_hsva, hbmax, hrmax, hgmin, hrmin]
  rw [if_pos (show b ≠ g from hgb.ne'),
      if_neg (show ¬ (r ≥ g ∧ r ≥ b) from fun hc => absurd hc.2 (not_le.mpr hrb)),
      if_neg (not_le.mpr hgb),
      if_neg (by linarith : ¬ (1:ℚ)/6 * (4 + (r - g) / (b - g)) < 0),
      if_neg (by linarith : ¬ (1:ℚ)/6 * (4 + (r - g) / (b - g)) > 1),
      if_pos hb0.ne']

/-- `rgba_to_hsva` when blue is the maximum and red the minimum
(`r < g < b`). -/
theorem rgba_to_hsva_caseC2 (r g b a : ℚ) (hr0 : 0 ≤ r) (hrg : r < g) (hgb : g < b) :
    rgba_to_hsva r g b a = (1/6 * (4 + (r - g) / (b - r)), (b - r) / b, b, a) := by
  have hbmax : max g b = b := max_eq_right hgb.le
  have hrmax : max r b = b := max_eq_right (by linarith)
  have hgmin : min g b = g := min_eq_left hgb.le
  have hrmin : min r g = r := min_eq_left hrg.le
  have hb0 : 0 < b := by linarith
  have hx1 : -1 < (r - g) / (b - r) := by
    rw [lt_div_iff (by linarith : (0:ℚ) < b - r)]; linarith
  have hx0 : (r - g) / (b - r) < 0 :=
    div_neg_of_neg_of_pos (by linarith) (by linarith)
  simp only [rgba_to_hsva, hbmax, hrmax, hgmin, hrmin]
  rw [if_pos (show b ≠ r from (by linarith : r < b).ne'),
      if_neg (show ¬ (r ≥ g ∧ r ≥ b) from fun hc => absurd hc.1 (not_le.mpr hrg)),
      if_neg (not_le.mpr hgb),
      if_neg (by linarith : ¬ (1:ℚ)/6 * (4 + (r - g) / (b - r)) < 0),
      if_neg (by linarith : ¬ (1:ℚ)/6 * (4 + (r - g) / (b - r)) > 1),
      if_pos hb0.ne']

/-- `rgba_to_hsva` on an achromatic input: hue is the constant 1/6,
saturation 0, value the common component. -/
theorem rgba_to_hsva_eq_achromatic (x a : ℚ) : rgba_to_hsva x x x a = (1/6, 0, x, a) := by
  simp only [rgba_to_hsva, max_self, min_self, ne_eq, not_true_eq_false, if_false,
    sub_self, zero_div, ite_self]
  norm_num

/-- C5 amended: for RGBA inputs in [0,1]^4 whose HSVA image has
saturation at least the 1e-4 achromatic threshold, the round trip
`hsva_to_rgba (rgba_to_hsva ...)` returns the original color exactly
(in the exact-rational model).  For 0 < s < 1e-4 the round trip
instead returns the achromatic color (see the counterexample). -/
theorem rgba_hsva_roundtrip (r g b a : ℚ)
    (hr0 : 0 ≤ r) (hr1 : r ≤ 1) (hg0 : 0 ≤ g) (hg1 : g ≤ 1)
    (hb0 : 0 ≤ b) (hb1 : b ≤ 1)
    (hs : 1/10000 ≤ (rgba_to_hsva r g b a).2.1) :
    hsva_to_rgba (rgba_to_hsva r g b a).1 (rgba_to_hsva r g b a).2.1
        (rgba_to_hsva r g b a).2.2.1 (rgba_to_hsva r g b a).2.2.2 = (r, g, b, a) := by
  rcases le_or_lt g r with hgr | hrg
  · rcases le_or_lt b g with hbg | hgb
    · -- b ≤ g ≤ r : red is the maximum, blue the minimum
      have hbr : b < r := by
        rcases eq_or_lt_of_le (le_trans hbg hgr) with h | h
        · exfalso
          have h1 : b = g := by linarith
          have h2 : g = r := by linarith
          rw [h1, h2, rgba_to_hsva_eq_achromatic] at hs
          norm_num at hs
        · exact h
      rw [rgba_to_hsva_caseA1 r g b a hb0 hbg hgr hbr] at hs ⊢
      simp only at hs ⊢
      have hd : (0:ℚ) < r - b := by linarith
      have hrr : (0:ℚ) < r := lt_of_le_of_lt hb0 hbr
      have hx0 : 0 ≤ (g - b) / (r - b) := div_nonneg (by linarith) hd.le
      rcases lt_or_eq_of_le hgr with hlt | heq
      · -- g < r : hue slice 0
        have hx1 : (g - b) / (r - b) < 1 := by
          rw [div_lt_one hd]; linarith
        rw [hsva_to_rgba_eval _ _ _ _ (not_lt.mpr hs) 0 le_rfl
              (by push_cast; linarith) (by push_cast; linarith)]
        norm_num
        constructor
        · field_simp
          ring
        · field_simp
      · -- g = r : hue slice 1
        have hx1 : (g - b) / (r - b) = 1 := by
          rw [heq]; exact div_self hd.ne'
        rw [hsva_to_rgba_eval _ _ _ _ (not_lt.mpr hs) 1 (by norm_num)
              (by push_cast; linarith) (by push_cast; linarith)]
        norm_num [hx1]
        refine ⟨by linarith, by field_simp⟩
    · -- g < b and g ≤ r
      rcases le_or_lt b r with hbr | hrb
      · -- g < b ≤ r : hue slice 5
        rw [rgba_to_hsva_caseA2 r g b a hg0 hgb hbr] at hs ⊢
        simp only at hs ⊢
        have hd : (0:ℚ) < r - g := by linarith
        have hrr : (0:ℚ) < r := by linarith
        have hx1 : -1 ≤ (g - b) / (r - g) := by
          rw [le_div_iff hd]; linarith
        have hx0 : (g - b) / (r - g) < 0 :=
          div_neg_of_neg_of_pos (by linarith) hd
        rw [hsva_to_rgba_eval _ _ _ _ (not_lt.mpr hs) 5 (by norm_num)
              (by push_cast; linarith) (by push_cast; linarith)]
        norm_num
        refine ⟨by field_simp, by field_simp; ring⟩
      · -- g ≤ r < b : hue slice 4
        rw [rgba_to_hsva_caseC1 r g b a hg0 hgr hrb] at hs ⊢
        simp only at hs ⊢
        have hd : (0:ℚ) < b - g := by linarith
        have hbb : (0:ℚ) < b := by linarith
        have hx0 : 0 ≤ (r - g) / (b - g) := div_nonneg (by linarith) hd.le
        have hx1 : (r - g) / (b - g) < 1 := by
          rw [div_lt_one hd]; linarith
        rw [hsva_to_rgba_eval _ _ _ _ (not_lt.mpr hs) 4 (by norm_num)
              (by push_cast; linarith) (by push_cast; linarith)]
        norm_num
        refine ⟨by field_simp; ring, by field_simp⟩
  · -- r < g
    rcases le_or_lt r b with hrb | hbr
    · rcases le_or_lt b g with hbg | hgb
      · -- r ≤ b ≤ g, r < g
        rw [rgba_to_hsva_caseB1 r g b a hr0 hrb hbg hrg] at hs ⊢
        simp only at hs ⊢
        have hd : (0:ℚ) < g - r := by linarith
        have hgg : (0:ℚ) < g := by linarith
        have hx0 : 0 ≤ (b - r) / (g - r) := div_nonneg (by linarith) hd.le
        rcases lt_or_eq_of_le hbg with hlt | heq
        · -- b < g : hue slice 2
          have hx1 : (b - r) / (g - r) < 1 := by
            rw [div_lt_one hd]; linarith
          rw [hsva_to_rgba_eval _ _ _ _ (not_lt.mpr hs) 2 (by norm_num)
                (by push_cast; linarith) (by push_cast; linarith)]
          norm_num
          refine ⟨by field_simp, by field_simp; ring⟩
        · -- b = g : hue slice 3
          have hx1 : (b - r) / (g - r) = 1 := by
            rw [heq]; exact div_self hd.ne'
          rw [hsva_to_rgba_eval _ _ _ _ (not_lt.mpr hs) 3 (by norm_num)
                (by push_cast; linarith) (by push_cast; linarith)]
          norm_num [hx1]
          refine ⟨by field_simp, by linarith⟩
      · -- r < g < b : hue slice 3
        rw [rgba_to_hsva_caseC2 r g b a hr0 hrg hgb] at hs ⊢
        simp only at hs ⊢
        have hd : (0:ℚ) < b - r := by linarith
        have hbb : (0:ℚ) < b := by linarith
        have hx1 : -1 < (r - g) / (b - r) := by
          rw [lt_div_iff hd]; linarith
        have hx0 : (r - g) / (b - r) < 0 :=
          div_neg_of_neg_of_pos (by linarith) hd
        rw [hsva_to_rgba_eval _ _ _ _ (not_lt.mpr hs) 3 (by norm_num)
              (by push_cast; linarith) (by push_cast; linarith)]
        norm_num
        refine ⟨by field_simp, by field_simp; ring⟩
    · -- b < r < g : hue slice 1
      rw [rgba_to_hsva_caseB2 r g b a hb0 hbr hrg] at hs ⊢
      simp only at hs ⊢
      have hd : (0:ℚ) < g - b := by linarith
      have hgg : (0:ℚ) < g := by linarith
      have hx1 : -1 < (b - r) / (g - b) := by
        rw [lt_div_iff hd]; linarith
      have hx0 : (b - r) / (g - b) < 0 :=
        div_neg_of_neg_of_pos (by linarith) hd
      rw [hsva_to_rgba_eval _ _ _ _ (not_lt.mpr hs) 1 (by norm_num)
            (by push_cast; linarith) (by push_cast; linarith)]
      norm_num
      constructor
      · have he : 6 * (1 / 6 * (2 + (b - r) / (g - b))) - 1 = 1 + (b - r) / (g - b) := by
          ring
        rw [he]
        field_simp
      · field_simp

/-- Witness for C5 amended at (0.9, 0.5, 0.1, 1), whose saturation is
8/9. -/
theorem rgba_hsva_roundtrip_witness :
    ((0:ℚ) ≤ 9/10 ∧ (9/10:ℚ) ≤ 1 ∧ (0:ℚ) ≤ 1/2 ∧ (1/2:ℚ) ≤ 1 ∧ (0:ℚ) ≤ 1/10 ∧
     (1/10:ℚ) ≤ 1 ∧ 1/10000 ≤ (rgba_to_hsva (9/10) (1/2) (1/10) 1).2.1) ∧
    hsva_to_rgba (rgba_to_hsva (9/10) (1/2) (1/10) 1).1
        (rgba_to_hsva (9/10) (1/2) (1/10) 1).2.1
        (rgba_to_hsva (9/10) (1/2) (1/10) 1).2.2.1
        (rgba_to_hsva (9/10) (1/2) (1/10) 1).2.2.2 = (9/10, 1/2, 1/10, 1) :=
  ⟨by decide, rgba_hsva_roundtrip (9/10) (1/2) (1/10) 1 (by decide) (by decide) (by decide)
    (by decide) (by decide) (by decide) (by decide)⟩

/-- C5 counterexample: at (1, 1, 0.99995, 1) the HSVA image has
saturation 1/20000, which is strictly positive, yet the round trip
returns the achromatic (1, 1, 1, 1): the blue component comes back off
by exactly 1/20000 = 5e-5, far beyond double-precision rounding error,
so "s > 0" is not sufficient — the code's achromatic threshold is
s < 1e-4. -/
theorem roundtrip_fails_below_threshold :
    0 < (rgba_to_hsva 1 1 (19999/20000) 1).2.1 ∧
    hsva_to_rgba (rgba_to_hsva 1 1 (19999/20000) 1).1
        (rgba_to_hsva 1 1 (19999/20000) 1).2.1
        (rgba_to_hsva 1 1 (19999/20000) 1).2.2.1
        (rgba_to_hsva 1 1 (19999/20000) 1).2.2.2 ≠ (1, 1, 19999/20000, 1) ∧
    (hsva_to_rgba (rgba_to_hsva 1 1 (19999/20000) 1).1
        (rgba_to_hsva 1 1 (19999/20000) 1).2.1
        (rgba_to_hsva 1 1 (19999/20000) 1).2.2.1
        (rgba_to_hsva 1 1 (19999/20000) 1).2.2.2).2.2.1 - 19999/20000 = 1/20000 := by
  decide
/-- Invariant of the inner advance loop: starting from a state whose
bracketing end point is a list element with matching position and
`next_interval_begin_idx`, the loop lands on a state with the same
shape whose next boundary lies strictly beyond the current table
index, and whose start position stays below 1. -/
theorem advanceCh_spec (size : ℕ) (cpi : List (ℤ × ColorControlPoint))
    (hsize : 2 ≤ size)
    (hidx0 : ∀ x ∈ cpi, 0 ≤ x.1)
    (hlidx : (cpi.getD (cpi.length - 1) cpiDflt).1 = (size : ℤ) - 1)
    (hfpos : ∀ j < cpi.length - 1, (cpi.getD j cpiDflt).2.pos < 1)
    (hmono : ∀ i j, i ≤ j → j < cpi.length →
      (cpi.getD i cpiDflt).1 ≤ (cpi.getD j cpiDflt).1)
    (k : ℕ) (hk : k ≤ size - 1) :
    ∀ fuel s,
      cpi.length - s.end_id ≤ fuel →
      s.end_id < cpi.length →
      s.end_point = (cpi.getD s.end_id cpiDflt).2 →
      s.end_pos = s.end_point.pos →
      s.next_idx = 1 + (cpi.getD s.end_id cpiDflt).1 →
      (k : ℤ) ≤ s.next_idx →
      s.start_pos < 1 →
      (advanceCh cpi k fuel s).end_id < cpi.length ∧
      (advanceCh cpi k fuel s).end_point =
        (cpi.getD (advanceCh cpi k fuel s).end_id cpiDflt).2 ∧
      (advanceCh cpi k fuel s).end_pos = (advanceCh cpi k fuel s).end_point.pos ∧
      (advanceCh cpi k fuel s).next_idx =
        1 + (cpi.getD (advanceCh cpi k fuel s).end_id cpiDflt).1 ∧
      (k : ℤ) < (advanceCh cpi k fuel s).next_idx ∧
      (advanceCh cpi k fuel s).start_pos < 1 := by
  intro fuel
  induction fuel with
  | zero =>
    intro s hfuel hid _ _ _ _ _
    omega
  | succ m ih =>
    intro s hfuel hid hep hepos hnext hkle hsp
    by_cases hcond : (k : ℤ) = s.next_idx
    · have hne : s.end_id ≠ cpi.length - 1 := by
        intro he
        rw [he, hlidx] at hnext
        omega
      have hlt : s.end_id < cpi.length - 1 := by omega
      have hmono1 : (cpi.getD s.end_id cpiDflt).1 ≤ (cpi.getD (s.end_id + 1) cpiDflt).1 :=
        hmono s.end_id (s.end_id + 1) (by omega) (by omega)
      have hstep : advanceCh cpi k (m + 1) s = advanceCh cpi k m
          { end_id := s.end_id + 1
            start_point := s.end_point
            end_point := (cpi.getD (s.end_id + 1) cpiDflt).2
            start_pos := s.end_pos
            end_pos := (cpi.getD (s.end_id + 1) cpiDflt).2.pos
            next_idx := 1 + (cpi.getD (s.end_id + 1) cpiDflt).1 } := by
        simp only [advanceCh]
        rw [if_pos hcond]
      rw [hstep]
      refine ih _ ?_ ?_ rfl rfl rfl ?_ ?_
      · show cpi.length - (s.end_id + 1) ≤ m
        omega
      · show s.end_id + 1 < cpi.length
        omega
      · show (k : ℤ) ≤ 1 + (cpi.getD (s.end_id + 1) cpiDflt).1
        rw [hnext] at hcond
        omega
      · show s.end_pos < 1
        rw [hepos, hep]
        exact hfpos s.end_id hlt
    · have hstep : advanceCh cpi k (m + 1) s = s := by
        simp only [advanceCh]
        rw [if_neg hcond]
      rw [hstep]
      exact ⟨hid, hep, hepos, hnext, lt_of_le_of_ne hkle hcond, hsp⟩

/-- The last entry written by the per-channel walk is the channel
value of the last (position 1.0) control point: at k = size-1 the
bracketing end point must be the last list element and the
interpolation weight is exactly 1. -/
theorem chanGo_getLast (size : ℕ) (cpi : List (ℤ × ColorControlPoint)) (ci : ℕ)
    (hsize : 2 ≤ size)
    (hidx0 : ∀ x ∈ cpi, 0 ≤ x.1)
    (hlidx : (cpi.getD (cpi.length - 1) cpiDflt).1 = (size : ℤ) - 1)
    (hlpos : (cpi.getD (cpi.length - 1) cpiDflt).2.pos = 1)
    (hfidx : ∀ j < cpi.length - 1, (cpi.getD j cpiDflt).1 ≤ (size : ℤ) - 2)
    (hfpos : ∀ j < cpi.length - 1, (cpi.getD j cpiDflt).2.pos < 1)
    (hmono : ∀ i j, i ≤ j → j < cpi.length →
      (cpi.getD i cpiDflt).1 ≤ (cpi.getD j cpiDflt).1) :
    ∀ fuel k s,
      fuel + k = size → 1 ≤ fuel → k ≤ size - 1 →
      s.end_id < cpi.length →
      s.end_point = (cpi.getD s.end_id cpiDflt).2 →
      s.end_pos = s.end_point.pos →
      s.next_idx = 1 + (cpi.getD s.end_id cpiDflt).1 →
      (k : ℤ) ≤ s.next_idx →
      s.start_pos < 1 →
      (chanGo size cpi ci k fuel s).getD (fuel - 1) 0 =
        hsvaComp (cpi.getD (cpi.length - 1) cpiDflt).2.color.hsva ci := by
  intro fuel
  induction fuel with
  | zero => omega
  | succ m ih =>
    intro k s hsum h1 hk hid hep hepos hnext hkle hsp
    obtain ⟨hid', hep', hepos', hnext', hklt', hsp'⟩ :=
      advanceCh_spec size cpi hsize hidx0 hlidx hfpos hmono k hk
        (cpi.length + 1) s (by omega) hid hep hepos hnext hkle hsp
    cases m with
    | zero =>
      -- k = size - 1 : the advanced end point must be the last control point
      have hkeq : k = size - 1 := by omega
      have heid : (advanceCh cpi k (cpi.length + 1) s).end_id = cpi.length - 1 := by
        by_contra hne
        have hl2 : (advanceCh cpi k (cpi.length + 1) s).end_id < cpi.length - 1 := by
          omega
        have := hfidx _ hl2
        rw [hnext'] at hklt'
        omega
      have hepos1 : (advanceCh cpi k (cpi.length + 1) s).end_pos = 1 := by
        rw [hepos', hep', heid, hlpos]
      have hcur : ((k : ℚ)) / ((size : ℚ) - 1) = 1 := by
        have hszq : ((size : ℚ)) - 1 ≠ 0 := by
          have : (2:ℚ) ≤ (size : ℚ) := by exact_mod_cast hsize
          linarith
        have hkq : (k : ℚ) = (size : ℚ) - 1 := by
          rw [hkeq]
          push_cast [Nat.cast_sub (by omega : 1 ≤ size)]
          ring
        rw [hkq, div_self hszq]
      simp only [chanGo]
      rw [List.getD_cons_zero]
      rw [hcur, hepos1]
      have hf1 : (1 - (advanceCh cpi k (cpi.length + 1) s).start_pos) /
          (1 - (advanceCh cpi k (cpi.length + 1) s).start_pos) = 1 :=
        div_self (by linarith)
      rw [hf1]
      rw [hep', heid]
      unfold lerp
      ring
    | succ l =>
      have hstep : chanGo size cpi ci k (l + 1 + 1) s =
          lerp (hsvaComp (advanceCh cpi k (cpi.length + 1) s).start_point.color.hsva ci)
            (hsvaComp (advanceCh cpi k (cpi.length + 1) s).end_point.color.hsva ci)
            (((k : ℚ) / ((size : ℚ) - 1) - (advanceCh cpi k (cpi.length + 1) s).start_pos) /
              ((advanceCh cpi k (cpi.length + 1) s).end_pos -
                (advanceCh cpi k (cpi.length + 1) s).start_pos)) ::
          chanGo size cpi ci (k + 1) (l + 1) (advanceCh cpi k (cpi.length + 1) s) := rfl
      rw [hstep]
      have hidx : l + 1 + 1 - 1 = (l + 1 - 1) + 1 := by omega
      rw [hidx, List.getD_cons_succ]
      exact ih (k + 1) (advanceCh cpi k (cpi.length + 1) s) (by omega) (by omega)
        (by omega) hid' hep' hepos' hnext' (by omega) hsp'

/-- First and last entries of one recomputed channel row: the first
entry is the first control point's channel value (weight 0), the last
entry is the last control point's channel value (weight 1). -/
theorem chanRun_boundary (size : ℕ) (cpi : List (ℤ × ColorControlPoint)) (ci : ℕ)
    (hsize : 2 ≤ size) (hn : 2 ≤ cpi.length)
    (hidx0 : ∀ x ∈ cpi, 0 ≤ x.1)
    (hfidx0 : (cpi.getD 0 cpiDflt).1 = 0)
    (hfpos0 : (cpi.getD 0 cpiDflt).2.pos = 0)
    (hlidx : (cpi.getD (cpi.length - 1) cpiDflt).1 = (size : ℤ) - 1)
    (hlpos : (cpi.getD (cpi.length - 1) cpiDflt).2.pos = 1)
    (hfidx : ∀ j < cpi.length - 1, (cpi.getD j cpiDflt).1 ≤ (size : ℤ) - 2)
    (hfpos : ∀ j < cpi.length - 1, (cpi.getD j cpiDflt).2.pos < 1)
    (hmono : ∀ i j, i ≤ j → j < cpi.length →
      (cpi.getD i cpiDflt).1 ≤ (cpi.getD j cpiDflt).1) :
    (chanRun size cpi ci).getD 0 0 = hsvaComp (cpi.getD 0 cpiDflt).2.color.hsva ci ∧
    (chanRun size cpi ci).getD (size - 1) 0 =
      hsvaComp (cpi.getD (cpi.length - 1) cpiDflt).2.color.hsva ci := by
  have h1mem : cpi.getD 1 cpiDflt ∈ cpi := by
    rw [List.getD_eq_getElem cpi cpiDflt (by omega : 1 < cpi.length)]
    exact List.getElem_mem _
  have hidx1 : 0 ≤ (cpi.getD 1 cpiDflt).1 := hidx0 _ h1mem
  -- the advance at k = 0 runs exactly once
  have hadv0 : advanceCh cpi 0 (cpi.length + 1) (chanInit cpi) =
      { end_id := 1
        start_point := (cpi.getD 0 cpiDflt).2
        end_point := (cpi.getD 1 cpiDflt).2
        start_pos := 0
        end_pos := (cpi.getD 1 cpiDflt).2.pos
        next_idx := 1 + (cpi.getD 1 cpiDflt).1 } := by
    obtain ⟨t, ht⟩ : ∃ t, cpi.length = t + 2 := ⟨cpi.length - 2, by omega⟩
    rw [ht]
    show advanceCh cpi 0 (t + 2 + 1) (chanInit cpi) = _
    rw [show t + 2 + 1 = (t + 2) + 1 from rfl]
    simp only [advanceCh, chanInit]
    norm_num
    intro hcontra
    exfalso
    rw [← List.getD_eq_getElem?_getD] at hcontra
    omega
  obtain ⟨m, hm⟩ : ∃ m, size = m + 1 := ⟨size - 1, by omega⟩
  have hstep : chanRun size cpi ci =
      lerp (hsvaComp (advanceCh cpi 0 (cpi.length + 1) (chanInit cpi)).start_point.color.hsva ci)
        (hsvaComp (advanceCh cpi 0 (cpi.length + 1) (chanInit cpi)).end_point.color.hsva ci)
        (((0 : ℕ) / ((size : ℚ) - 1) - (advanceCh cpi 0 (cpi.length + 1) (chanInit cpi)).start_pos) /
          ((advanceCh cpi 0 (cpi.length + 1) (chanInit cpi)).end_pos -
            (advanceCh cpi 0 (cpi.length + 1) (chanInit cpi)).start_pos)) ::
      chanGo size cpi ci 1 m (advanceCh cpi 0 (cpi.length + 1) (chanInit cpi)) := by
    unfold chanRun
    rw [hm]
    rfl
  constructor
  · rw [hstep, List.getD_cons_zero, hadv0]
    norm_num [lerp]
  · rw [hstep]
    have hidxe : size - 1 = (size - 2) + 1 := by omega
    rw [hidxe, List.getD_cons_succ]
    have := chanGo_getLast size cpi ci hsize hidx0 hlidx hlpos hfidx hfpos hmono
      m 1 (advanceCh cpi 0 (cpi.length + 1) (chanInit cpi)) (by omega) (by omega) (by omega)
      (by rw [hadv0]; show 1 < cpi.length; omega)
      (by rw [hadv0])
      (by rw [hadv0])
      (by rw [hadv0])
      (by rw [hadv0]; show ((1:ℕ):ℤ) ≤ 1 + (cpi.getD 1 cpiDflt).1; omega)
      (by rw [hadv0]; show (0:ℚ) < 1; norm_num)
    rw [show m - 1 = size - 2 from by omega] at this
    exact this

/-- Truncation toward zero is monotone. -/
theorem pytrunc_mono {x y : ℚ} (h : x ≤ y) : pytrunc x ≤ pytrunc y := by
  unfold pytrunc
  by_cases hx : 0 ≤ x
  · rw [if_pos hx, if_pos (le_trans hx h)]
    exact Int.floor_le_floor h
  · rw [if_neg hx]
    by_cases hy : 0 ≤ y
    · rw [if_pos hy]
      exact le_trans (Int.ceil_le.mpr (by push_cast; linarith)) (Int.floor_nonneg.mpr hy)
    · rw [if_neg hy]
      exact Int.ceil_le_ceil h

/-- Reading a list extended by one element at the old length returns
that element. -/
theorem getD_concat_self {α : Type} (l : List α) (x d : α) :
    (l ++ [x]).getD l.length d = x := by
  induction l with
  | nil => rfl
  | cons a t ih => simpa using ih

/-- Gradient position 0 maps to table index 0. -/
theorem get_pos_index_zero (st : GradientTableOld) : st.get_pos_index 0 = 0 := by
  unfold GradientTableOld.get_pos_index pytrunc
  norm_num

/-- Gradient position 1 maps to the last table index. -/
theorem get_pos_index_one (st : GradientTableOld) (h : 1 ≤ st.size) :
    st.get_pos_index 1 = (st.size : ℤ) - 1 := by
  unfold GradientTableOld.get_pos_index pytrunc
  have hq : (1:ℚ) ≤ (st.size : ℚ) := by exact_mod_cast h
  rw [if_pos (by linarith : (0:ℚ) ≤ 1 * ((st.size : ℚ) - 1))]
  rw [one_mul, show ((st.size : ℚ) - 1) = (((st.size : ℤ) - 1 : ℤ) : ℚ) from by push_cast; ring,
      Int.floor_intCast]

/-- Per-channel boundary values of `update`'s recomputation, for a
control-point list of the form boundary-left, interior points,
boundary-right with the channel active on both boundaries. -/
theorem chanRun_filter_boundary (st : GradientTableOld) (L R : ColorControlPoint)
    (mid : List ColorControlPoint) (ci : ℕ) (c : Char)
    (hcp : st.control_points = L :: mid ++ [R])
    (hsize : 2 ≤ st.size) (hL : L.pos = 0) (hR : R.pos = 1)
    (hLc : strContains L.active_channels c = true)
    (hRc : strContains R.active_channels c = true)
    (hmid : ∀ p ∈ mid, 0 < p.pos ∧ p.pos < 1)
    (hsorted : List.Pairwise (fun p q : ColorControlPoint => p.pos ≤ q.pos) mid) :
    (chanRun st.size
        (st.updatePlacement.filter (fun x => strContains x.2.active_channels c)) ci).getD 0 0 =
      hsvaComp L.color.hsva ci ∧
    (chanRun st.size
        (st.updatePlacement.filter (fun x => strContains x.2.active_channels c)) ci).getD
        (st.size - 1) 0 = hsvaComp R.color.hsva ci := by
  have hszq : (1:ℚ) ≤ (st.size : ℚ) - 1 := by
    have : (2:ℚ) ≤ (st.size : ℚ) := by exact_mod_cast hsize
    linarith
  have hgL : st.get_pos_index L.pos = 0 := by rw [hL]; exact get_pos_index_zero st
  have hgR : st.get_pos_index R.pos = (st.size : ℤ) - 1 := by
    rw [hR]; exact get_pos_index_one st (by omega)
  have hshape : st.updatePlacement.filter (fun x => strContains x.2.active_channels c) =
      (0, L) :: ((mid.map (fun p => (st.get_pos_index p.pos, p))).filter
          (fun x => strContains x.2.active_channels c) ++ [((st.size : ℤ) - 1, R)]) := by
    unfold GradientTableOld.updatePlacement
    rw [hcp]
    simp only [List.map_cons, List.map_append, List.map_singleton, List.map_nil, hgL, hgR,
      List.filter_cons, List.filter_append, List.filter_nil, List.cons_append, hLc, hRc,
      if_true]
  set M := (mid.map (fun p => (st.get_pos_index p.pos, p))).filter
      (fun x => strContains x.2.active_channels c) with hM
  have hMsub : ∀ x ∈ M, ∃ p ∈ mid, x = (st.get_pos_index p.pos, p) := by
    intro x hx
    have hx2 := List.mem_of_mem_filter hx
    simp only [List.mem_map] at hx2
    obtain ⟨p, hp, rfl⟩ := hx2
    exact ⟨p, hp, rfl⟩
  have hidxp : ∀ p ∈ mid, 0 ≤ st.get_pos_index p.pos ∧
      st.get_pos_index p.pos ≤ (st.size : ℤ) - 2 := by
    intro p hp
    obtain ⟨hp0, hp1⟩ := hmid p hp
    have hnn : (0:ℚ) ≤ p.pos * ((st.size : ℚ) - 1) := mul_nonneg hp0.le (by linarith)
    unfold GradientTableOld.get_pos_index pytrunc
    rw [if_pos hnn]
    constructor
    · exact Int.floor_nonneg.mpr hnn
    · have hlt : p.pos * ((st.size : ℚ) - 1) < (st.size : ℚ) - 1 := by
        have := mul_lt_mul_of_pos_right hp1 (by linarith : (0:ℚ) < (st.size : ℚ) - 1)
        simpa using this
      have hfl : ⌊p.pos * ((st.size : ℚ) - 1)⌋ < (st.size : ℤ) - 1 := by
        rw [Int.floor_lt]
        push_cast
        linarith
      omega
  set E := (0, L) :: (M ++ [((st.size : ℤ) - 1, R)]) with hE
  have hlen : E.length = M.length + 2 := by simp [hE]
  have hget0 : E.getD 0 cpiDflt = (0, L) := rfl
  have hgetlast : E.getD (E.length - 1) cpiDflt = ((st.size : ℤ) - 1, R) := by
    rw [hlen]
    show ((0, L) :: (M ++ [((st.size : ℤ) - 1, R)])).getD (M.length + 1) cpiDflt = _
    rw [List.getD_cons_succ, getD_concat_self]
  have hfront : ∀ j, j < E.length - 1 →
      E.getD j cpiDflt = (0, L) ∨ E.getD j cpiDflt ∈ M := by
    intro j hj
    rw [hlen] at hj
    cases j with
    | zero => exact Or.inl rfl
    | succ i =>
      right
      have hi : i < M.length := by omega
      show ((M ++ [((st.size : ℤ) - 1, R)]).getD i cpiDflt) ∈ M
      rw [List.getD_append _ _ _ _ hi, List.getD_eq_getElem _ _ hi]
      exact List.getElem_mem _
  -- monotonicity of the index along E
  have hmono_fn : ∀ p q : ColorControlPoint, p.pos ≤ q.pos →
      st.get_pos_index p.pos ≤ st.get_pos_index q.pos := by
    intro p q hpq
    exact pytrunc_mono (mul_le_mul_of_nonneg_right hpq (by linarith))
  have hpos_pair : List.Pairwise (fun p q : ColorControlPoint => p.pos ≤ q.pos)
      (L :: (mid ++ [R])) := by
    rw [List.pairwise_cons]
    constructor
    · intro q hq
      rcases List.mem_append.mp hq with hq | hq
      · rw [hL]; exact (hmid q hq).1.le
      · simp only [List.mem_singleton] at hq
        subst hq
        rw [hL, hR]; norm_num
    · rw [List.pairwise_append]
      refine ⟨hsorted, List.pairwise_singleton _ _, ?_⟩
      intro p hp q hq
      simp only [List.mem_singleton] at hq
      subst hq
      rw [hR]; exact (hmid p hp).2.le
  have hE_pair : List.Pairwise (fun x y : ℤ × ColorControlPoint => x.1 ≤ y.1) E := by
    have hfull : List.Pairwise (fun x y : ℤ × ColorControlPoint => x.1 ≤ y.1)
        ((L :: (mid ++ [R])).map (fun p => (st.get_pos_index p.pos, p))) := by
      rw [List.pairwise_map]
      exact hpos_pair.imp (fun h => hmono_fn _ _ h)
    have hsub : E.Sublist ((L :: (mid ++ [R])).map (fun p => (st.get_pos_index p.pos, p))) := by
      rw [← hshape]
      have : (L :: (mid ++ [R])).map (fun p => (st.get_pos_index p.pos, p)) =
          st.updatePlacement := by
        unfold GradientTableOld.updatePlacement
        rw [hcp]
        rfl
      rw [this]
      exact List.filter_sublist _
    exact hfull.sublist hsub
  have hmono : ∀ i j, i ≤ j → j < E.length →
      (E.getD i cpiDflt).1 ≤ (E.getD j cpiDflt).1 := by
    intro i j hij hj
    rcases eq_or_lt_of_le hij with rfl | hlt
    · exact le_refl _
    · have hi : i < E.length := lt_trans hlt hj
      rw [List.getD_eq_get _ _ hi, List.getD_eq_get _ _ hj]
      exact List.pairwise_iff_get.mp hE_pair ⟨i, hi⟩ ⟨j, hj⟩ hlt
  -- assemble the ChanOk-style facts and apply chanRun_boundary
  have happly := chanRun_boundary st.size E ci hsize (by rw [hlen]; omega)
    (by
      intro x hx
      rw [hE] at hx
      rcases List.mem_cons.mp hx with rfl | hx
      · norm_num
      · rcases List.mem_append.mp hx with hx | hx
        · obtain ⟨p, hp, rfl⟩ := hMsub x hx
          exact (hidxp p hp).1
        · simp only [List.mem_singleton] at hx
          subst hx
          simp only
          omega)
    (by rw [hget0])
    (by rw [hget0]; exact hL)
    (by rw [hgetlast])
    (by rw [hgetlast]; exact hR)
    (by
      intro j hj
      rcases hfront j hj with hj0 | hjm
      · rw [hj0]; simp only; omega
      · obtain ⟨p, hp, heq⟩ := hMsub _ hjm
        rw [heq]
        exact (hidxp p hp).2)
    (by
      intro j hj
      rcases hfront j hj with hj0 | hjm
      · rw [hj0]; simp only [hL]; norm_num
      · obtain ⟨p, hp, heq⟩ := hMsub _ hjm
        rw [heq]
        exact (hmid p hp).2)
    hmono
  rw [hshape]
  constructor
  · rw [happly.1, hget0]
  · rw [happly.2, hgetlast]

/-- C6: on any control-point set satisfying the boundary invariant
(a fully-constrained point at position 0.0 first and at 1.0 last,
interior points strictly inside (0,1) and sorted), querying the
recomputed gradient at positions 0.0 and 1.0 returns exactly the
boundary control points' colors, whatever the interior points are. -/
theorem boundary_colors (st : GradientTableOld) (L R : ColorControlPoint)
    (mid : List ColorControlPoint)
    (hcp : st.control_points = L :: mid ++ [R])
    (hsize : 2 ≤ st.size)
    (hL : L.pos = 0) (hR : R.pos = 1)
    (hLh : strContains L.active_channels 'h' = true)
    (hLs : strContains L.active_channels 's' = true)
    (hLv : strContains L.active_channels 'v' = true)
    (hLa : strContains L.active_channels 'a' = true)
    (hRh : strContains R.active_channels 'h' = true)
    (hRs : strContains R.active_channels 's' = true)
    (hRv : strContains R.active_channels 'v' = true)
    (hRa : strContains R.active_channels 'a' = true)
    (hmid : ∀ p ∈ mid, 0 < p.pos ∧ p.pos < 1)
    (hsorted : List.Pairwise (fun p q : ColorControlPoint => p.pos ≤ q.pos) mid) :
    (st.update.get_pos_color 0).hsva = L.color.hsva ∧
    (st.update.get_pos_color 1).hsva = R.color.hsva := by
  have hh := chanRun_filter_boundary st L R mid 0 'h' hcp hsize hL hR hLh hRh hmid hsorted
  have hs := chanRun_filter_boundary st L R mid 1 's' hcp hsize hL hR hLs hRs hmid hsorted
  have hv := chanRun_filter_boundary st L R mid 2 'v' hcp hsize hL hR hLv hRv hmid hsorted
  have ha := chanRun_filter_boundary st L R mid 3 'a' hcp hsize hL hR hLa hRa hmid hsorted
  have hth : st.update.table_hsva =
      [chanRun st.size (st.updatePlacement.filter
          (fun x => strContains x.2.active_channels 'h')) 0,
       chanRun st.size (st.updatePlacement.filter
          (fun x => strContains x.2.active_channels 's')) 1,
       chanRun st.size (st.updatePlacement.filter
          (fun x => strContains x.2.active_channels 'v')) 2,
       chanRun st.size (st.updatePlacement.filter
          (fun x => strContains x.2.active_channels 'a')) 3] := rfl
  have hi0 : (st.update.get_pos_index 0).toNat = 0 := by
    rw [get_pos_index_zero st.update]
    rfl
  have hi1 : (st.update.get_pos_index 1).toNat = st.size - 1 := by
    rw [get_pos_index_one st.update (show 1 ≤ st.update.size by
      show 1 ≤ st.size
      omega)]
    show ((st.size : ℤ) - 1).toNat = st.size - 1
    omega
  constructor
  · unfold GradientTableOld.get_pos_color
    rw [hi0]
    unfold GradientTableOld.get_color_hsva tableEntry
    rw [hth]
    simp only [List.getD_cons_zero, List.getD_cons_succ]
    rw [hh.1, hs.1, hv.1, ha.1]
    rfl
  · unfold GradientTableOld.get_pos_color
    rw [hi1]
    unfold GradientTableOld.get_color_hsva tableEntry
    rw [hth]
    simp only [List.getD_cons_zero, List.getD_cons_succ]
    rw [hh.2, hs.2, hv.2, ha.2]
    rfl

/-- Witness for C6: the 4-entry editor state with both boundary points
and the orange interior point. -/
theorem boundary_colors_witness :
    (gtoWithMid.control_points = leftBoundaryCP :: [orangeCP] ++ [rightBoundaryCP] ∧
     2 ≤ gtoWithMid.size ∧ leftBoundaryCP.pos = 0 ∧ rightBoundaryCP.pos = 1 ∧
     strContains leftBoundaryCP.active_channels 'h' = true ∧
     strContains rightBoundaryCP.active_channels 'a' = true ∧
     (∀ p ∈ [orangeCP], 0 < p.pos ∧ p.pos < 1)) ∧
    ((gtoWithMid.update.get_pos_color 0).hsva = leftBoundaryCP.color.hsva ∧
     (gtoWithMid.update.get_pos_color 1).hsva = rightBoundaryCP.color.hsva) :=
  ⟨by decide,
   boundary_colors gtoWithMid leftBoundaryCP rightBoundaryCP [orangeCP]
     (by decide) (by decide) (by decide) (by decide) (by decide) (by decide) (by decide)
     (by decide) (by decide) (by decide) (by decide) (by decide) (by decide)
     (List.pairwise_singleton _ _)⟩
